import Mathlib

/-!
Verification development for the Solana mint indexer (`src/index.js`).

The embedding models the scan/decode pipeline of `index.js`:
bytes are `List Nat` (one entry per byte), public keys are 32-byte lists,
the JS `Set` of discovered mints is a duplicate-free `List String` in
insertion order (JS sets iterate in insertion order, and `Array.from`
preserves it), and the asynchronous parts of the scan loop are modelled
as explicit state-passing functions over one poll cycle.
-/

/-! ## Base58 encoding (the `PublicKey#toBase58` library call, lines 243 / 291) -/

/-- The Bitcoin base58 alphabet used by Solana public keys. -/
def BASE58_ALPHABET : List Char :=
  "123456789ABCDEFGHJKLMNPQRSTUVWXYZabcdefghijkmnopqrstuvwxyz".toList

/-- Big-endian byte-list to natural number. -/
def bytesToNat (bs : List Nat) : Nat :=
  bs.foldl (fun acc b => acc * 256 + b) 0

/-- Number of leading zero bytes (each maps to one leading '1' in base58). -/
def leadingZeroCount : List Nat → Nat
  | [] => 0
  | b :: bs => if b = 0 then leadingZeroCount bs + 1 else 0

/-- Base58 digits of `n`, least significant first.  The first argument is
fuel (any bound on the digit count); it makes the recursion structural so
the kernel can evaluate it. -/
def natToBase58Digits : Nat → Nat → List Char
  | 0, _ => []
  | fuel + 1, n =>
    if n = 0 then []
    else BASE58_ALPHABET.getD (n % 58) '1' :: natToBase58Digits fuel (n / 58)

/-- `new PublicKey(bytes).toBase58()`: base58 encoding of a byte list.
Eight bits of fuel per byte is more than enough (each base58 digit
consumes more than five bits). -/
def pubkeyToBase58 (bs : List Nat) : String :=
  String.mk (List.replicate (leadingZeroCount bs) '1' ++
    (natToBase58Digits (8 * bs.length + 1) (bytesToNat bs)).reverse)

/-! ## Base64 decoding (the `Buffer.from(ix.data, 'base64')` call, line 285) -/

/-- Six-bit value of one base64 alphabet character. -/
def base64CharVal (c : Char) : Option Nat :=
  if 'A' ≤ c ∧ c ≤ 'Z' then some (c.toNat - 65)
  else if 'a' ≤ c ∧ c ≤ 'z' then some (c.toNat - 97 + 26)
  else if '0' ≤ c ∧ c ≤ '9' then some (c.toNat - 48 + 52)
  else if c = '+' then some 62
  else if c = '/' then some 63
  else none

/-- Pack a list of six-bit values into bytes (4 sextets to 3 bytes; a
trailing pair or triple yields the partial bytes, as base64 does). -/
def sextetsToBytes : List Nat → List Nat
  | a :: b :: c :: d :: rest =>
    (a * 4 + b / 16) :: ((b % 16) * 16 + c / 4) :: ((c % 4) * 64 + d) :: sextetsToBytes rest
  | [a, b] => [a * 4 + b / 16]
  | [a, b, c] => [a * 4 + b / 16, (b % 16) * 16 + c / 4]
  | _ => []

/-- `Buffer.from(s, 'base64')` (line 285): decode base64, ignoring padding
and characters outside the alphabet, as Node's lenient decoder does. -/
def bufferFromBase64 (s : String) : List Nat :=
  sextetsToBytes (s.toList.filterMap base64CharVal)

/-! ## The Borsh decode of InitializeMint (lines 63–101) -/

/-- The decoded object produced by `borsh.deserialize` with
`InitializeMintSchema` (lines 64–88): u8 instruction, u8 decimals,
32-byte mintAuthority, u8 freezeAuthorityOption, 32-byte freezeAuthority. -/
structure InitializeMintInstructionData where
  instruction : Nat
  decimals : Nat
  mintAuthority : List Nat
  freezeAuthorityOption : Nat
  freezeAuthority : List Nat
deriving DecidableEq

/-- `borsh.deserialize(InitializeMintSchema, InitializeMintInstructionData,
buffer)` (lines 96–100).  Borsh reads the five fixed-width fields in order
(1 + 1 + 32 + 1 + 32 = 67 bytes) and then rejects any trailing bytes, so
it succeeds exactly on 67-byte buffers; a failure is a thrown `BorshError`,
caught at every call site, modelled as `none`. -/
def borshDeserializeInitializeMint (buffer : List Nat) : Option InitializeMintInstructionData :=
  match buffer with
  | instr :: dec :: rest =>
    if rest.length = 65 then
      some ⟨instr, dec, rest.take 32, (rest.drop 32).headD 0, rest.drop 33⟩
    else none
  | _ => none

/-- One resolved account of a pseudo-instruction (lines 233–235 / 280–284). -/
structure AccountMeta where
  pubkey : List Nat
  isSigner : Bool
  isWritable : Bool
deriving DecidableEq

/-- The pseudo-`TransactionInstruction` object both decode paths build
(lines 231–238 and 278–286). -/
structure IxData where
  programId : List Nat
  keys : List AccountMeta
  data : List Nat
deriving DecidableEq

/-- `decodeInitializeMintInstruction` (lines 94–101): reads only the
`data` field of the pseudo-instruction and Borsh-deserializes it. -/
def decodeInitializeMintInstruction (instructionData : IxData) :
    Option InitializeMintInstructionData :=
  borshDeserializeInitializeMint instructionData.data

/-- The decode-and-check composite at the call sites (lines 241–242 and
289–290): Borsh-decode the raw bytes, then keep the result only when
`decoded.instruction === 0`.  A Borsh failure is caught (lines 250–252,
298–300), so the composite yields `none` rather than an exception. -/
def tryDecodeMintInit (buffer : List Nat) : Option InitializeMintInstructionData :=
  match borshDeserializeInitializeMint buffer with
  | some decoded => if decoded.instruction = 0 then some decoded else none
  | none => none

/-! ### Shape lemmas for the Borsh decoder -/

theorem borsh_isSome_iff (b : List Nat) :
    (borshDeserializeInitializeMint b).isSome ↔ b.length = 67 := by
  rcases b with _ | ⟨instr, b⟩
  · simp [borshDeserializeInitializeMint]
  rcases b with _ | ⟨dec, rest⟩
  · simp [borshDeserializeInitializeMint]
  simp only [borshDeserializeInitializeMint, List.length_cons]
  split
  · rename_i hcond
    simp
    omega
  · rename_i hcond
    simp
    omega

theorem borsh_eq_some (b : List Nat) (d : InitializeMintInstructionData)
    (h : borshDeserializeInitializeMint b = some d) :
    b.head? = some d.instruction ∧ d.mintAuthority = (b.drop 2).take 32 ∧
      d.decimals = (b.drop 1).headD 0 ∧ b.length = 67 := by
  rcases b with _ | ⟨instr, b⟩
  · simp [borshDeserializeInitializeMint] at h
  rcases b with _ | ⟨dec, rest⟩
  · simp [borshDeserializeInitializeMint] at h
  simp only [borshDeserializeInitializeMint] at h
  split at h
  · rename_i hcond
    simp only [Option.some.injEq] at h
    subst h
    refine ⟨rfl, by simp, by simp, by simp [hcond]⟩
  · simp at h

/-! ## Dedup ledger and persistence (lines 47–61, 103–125) -/

/-- `Array.from(newMints)` (lines 108 and 124): a JS `Set` iterates in
insertion order, so on our insertion-ordered list model it is the
identity. -/
def persistedArray (newMints : List String) : List String :=
  newMints

/-- The body of `GET /api/mints` (lines 123–125): `res.json(Array.from(newMints))`. -/
def apiMints (newMints : List String) : List String :=
  newMints

/-- `newMints.add(mint)` (line 56): JS `Set#add` is a no-op on an element
already present, otherwise appends in insertion order. -/
def addMint (s : List String) (mint : String) : List String :=
  if mint ∈ s then s else s ++ [mint]

/-- The startup load (lines 52–61): `mintsArray.forEach((mint) => newMints.add(mint))`
into the freshly created empty set. -/
def loadMints (mintsArray : List String) : List String :=
  mintsArray.foldl addMint []

/-- The guarded insertion pattern at lines 244–248 and 292–296:
`if (!newMints.has(mint)) { newMints.add(mint); ... }`.  Returns the new
set and whether the address was newly added (`false` = already present). -/
def insertIfAbsent (newMints : List String) (mint : String) : List String × Bool :=
  if mint ∈ newMints then (newMints, false) else (newMints ++ [mint], true)

/-- Whether a file write blocks its caller until the data is durably
written.  `fs.writeFile` is Node's asynchronous API — it queues the write
and returns at once (the callback at lines 109–115 runs later); only
`fs.writeFileSync` would complete before the caller proceeds. -/
inductive WriteMode
  | async
  | sync
deriving DecidableEq

/-- One issued file write: the array written and how it was issued. -/
structure WriteOp where
  data : List String
  mode : WriteMode
deriving DecidableEq

/-- `persistMints()` (lines 107–116): issues `fs.writeFile(MINTS_FILE,
JSON.stringify(Array.from(newMints)))` — an asynchronous write of the
whole current set — and returns without waiting for it. -/
def persistMints (newMints : List String) : WriteOp :=
  { data := persistedArray newMints, mode := WriteMode.async }

/-- Does this write op complete before its caller proceeds?  True only
for the synchronous API. -/
def completesBeforeCallerProceeds (w : WriteOp) : Bool :=
  match w.mode with
  | WriteMode.sync => true
  | WriteMode.async => false

/-! ## The two transaction decode paths (lines 207–303) -/

/-- The 32 bytes of `TOKEN_PROGRAM_ID`
(`TokenkegQfeZyiNwAJbNbGKPFXCWuBvf9Ss623VQ5DA`, imported on line 25). -/
def TOKEN_PROGRAM_ID : List Nat :=
  [6, 221, 246, 225, 215, 101, 161, 147, 217, 203, 225, 70, 206, 235, 121, 172,
   28, 180, 133, 237, 95, 91, 55, 145, 58, 140, 245, 133, 126, 255, 0, 169]

/-- One instruction of a decompiled (versioned) message, as produced by
`TransactionMessage.decompile` (lines 220–224): program id and data are
already resolved, accounts are indices into `accountKeys`. -/
structure DecompiledIx where
  programId : List Nat
  accounts : List Nat
  data : List Nat
deriving DecidableEq

/-- The legacy-like shape `TransactionMessage.decompile(msg)` yields
(lines 221–224). -/
structure DecompiledMessage where
  instructions : List DecompiledIx
  accountKeys : List (List Nat)
deriving DecidableEq

/-- One compiled instruction of a legacy message (lines 272–286):
`programIdIndex` and `accounts` index into `message.accountKeys`, and
`data` is a base64-encoded string (decoded at line 285). -/
structure LegacyIx where
  programIdIndex : Nat
  accounts : List Nat
  data : String
deriving DecidableEq

/-- A legacy message (lines 264–286).  `signerFlags`/`writableFlags`
model `message.isAccountSigner(i)` / `message.isAccountWritable(i)`. -/
structure LegacyMessage where
  accountKeys : List (List Nat)
  instructions : List LegacyIx
  signerFlags : List Bool
  writableFlags : List Bool
deriving DecidableEq

/-- The `MintInitRecord` derived fact: the decoded fields together with
the recorded address `new PublicKey(decoded.mintAuthority).toBase58()`
(lines 242–243 / 290–291). -/
structure MintRecord where
  mintAddress : String
  decimals : Nat
  mintAuthority : List Nat
  freezeAuthorityOption : Nat
  freezeAuthority : List Nat
deriving DecidableEq

/-- Result of running one transaction (or a block of them) against the
dedup set: the updated set, the file writes issued, in order, and the
mint-init records decoded, in order. -/
structure TxResult where
  mints : List String
  writes : List WriteOp
  records : List MintRecord
deriving DecidableEq

/-- The pseudo-instruction the versioned path builds (lines 231–238):
accounts resolved through `accountKeys`, signer/writable hardwired false. -/
def mkVersionedIxData (accountKeys : List (List Nat)) (ix : DecompiledIx) : IxData :=
  { programId := ix.programId
    keys := ix.accounts.map (fun idx =>
      { pubkey := accountKeys.getD idx [], isSigner := false, isWritable := false })
    data := ix.data }

/-- The decode-and-record body of the versioned loop (lines 240–252):
try to decode; on opcode 0 compute `toBase58(decoded.mintAuthority)` and,
when the address is new, insert it and call `persistMints()`; any decode
error is swallowed. -/
def versionedMintStep (r : TxResult) (ixData : IxData) : TxResult :=
  match decodeInitializeMintInstruction ixData with
  | some decoded =>
    if decoded.instruction = 0 then
      let mint := pubkeyToBase58 decoded.mintAuthority
      let rcd : MintRecord :=
        { mintAddress := mint, decimals := decoded.decimals
          mintAuthority := decoded.mintAuthority
          freezeAuthorityOption := decoded.freezeAuthorityOption
          freezeAuthority := decoded.freezeAuthority }
      if mint ∈ r.mints then
        { r with records := r.records ++ [rcd] }
      else
        { mints := r.mints ++ [mint]
          writes := r.writes ++ [persistMints (r.mints ++ [mint])]
          records := r.records ++ [rcd] }
    else r
  | none => r

def decodeVersionedGo (accountKeys : List (List Nat)) :
    List DecompiledIx → TxResult → TxResult
  | [], r => r
  | ix :: rest, r =>
    if ix.programId = TOKEN_PROGRAM_ID then
      decodeVersionedGo accountKeys rest (versionedMintStep r (mkVersionedIxData accountKeys ix))
    else decodeVersionedGo accountKeys rest r

/-- `decodeVersionedTransaction` (lines 213–258) given the decompiled
legacy-format message (the `serialize`/`deserialize`/`decompile` calls on
lines 217–221 are library round-trips producing `legacyFmt`). -/
def decodeVersionedTransaction (msg : DecompiledMessage) (newMints : List String) : TxResult :=
  decodeVersionedGo msg.accountKeys msg.instructions ⟨newMints, [], []⟩

/-- The pseudo-instruction the legacy path builds (lines 278–286):
accounts and flags resolved through the message, data base64-decoded. -/
def mkLegacyIxData (message : LegacyMessage) (programId : List Nat) (ix : LegacyIx) : IxData :=
  { programId := programId
    keys := ix.accounts.map (fun accIndex =>
      { pubkey := message.accountKeys.getD accIndex []
        isSigner := message.signerFlags.getD accIndex false
        isWritable := message.writableFlags.getD accIndex false })
    data := bufferFromBase64 ix.data }

/-- The decode-and-record body of the legacy loop (lines 288–300) — the
same duplicated code as `versionedMintStep`, as in the source. -/
def legacyMintStep (r : TxResult) (ixData : IxData) : TxResult :=
  match decodeInitializeMintInstruction ixData with
  | some decoded =>
    if decoded.instruction = 0 then
      let mint := pubkeyToBase58 decoded.mintAuthority
      let rcd : MintRecord :=
        { mintAddress := mint, decimals := decoded.decimals
          mintAuthority := decoded.mintAuthority
          freezeAuthorityOption := decoded.freezeAuthorityOption
          freezeAuthority := decoded.freezeAuthority }
      if mint ∈ r.mints then
        { r with records := r.records ++ [rcd] }
      else
        { mints := r.mints ++ [mint]
          writes := r.writes ++ [persistMints (r.mints ++ [mint])]
          records := r.records ++ [rcd] }
    else r
  | none => r

def decodeLegacyGo (message : LegacyMessage) :
    List LegacyIx → TxResult → TxResult
  | [], r => r
  | ix :: rest, r =>
    match message.accountKeys.get? ix.programIdIndex with
    | some programId =>
      if programId = TOKEN_PROGRAM_ID then
        decodeLegacyGo message rest (legacyMintStep r (mkLegacyIxData message programId ix))
      else decodeLegacyGo message rest r
    | none => decodeLegacyGo message rest r

/-- `decodeLegacyTransaction` (lines 264–303). -/
def decodeLegacyTransaction (msg : LegacyMessage) (newMints : List String) : TxResult :=
  decodeLegacyGo msg msg.instructions ⟨newMints, [], []⟩

/-! ## The scan loop (lines 29–34, 128–205) -/

/-- `SLOT_LAG = 2` (line 34). -/
def SLOT_LAG : Nat := 2

/-- The startup callback (lines 128–142): `lastSlot = await connection.getSlot()`
— the cursor starts at the slot the ledger reports, unmodified.  Nothing
else feeds it: the only persisted state read at startup is the mints file
(lines 52–61), which carries no cursor. -/
def initialLastSlot (reportedSlot : Nat) : Nat :=
  reportedSlot

/-- One entry of `block.transactions` after the per-transaction guards of
the scan loop (lines 176–188): a missing `transaction` object is skipped,
a transaction with `version >= 0` goes to the versioned path, anything
else to the legacy path (where a missing `message`/`accountKeys` is again
skipped, line 267). -/
inductive TxEntry
  | missing
  | malformedLegacy
  | versioned (msg : DecompiledMessage)
  | legacy (msg : LegacyMessage)
deriving DecidableEq

/-- What `connection.getBlock(slot)` produces for the loop (lines 165–172,
192–195): a block's transaction list, the `null` sentinel, or a thrown
error (caught as `slotErr`). -/
inductive BlockFetchResult
  | ok (transactions : List TxEntry)
  | nullBlock
  | throwErr
deriving DecidableEq

/-- One iteration of the transaction loop of one block (lines 176–188):
dispatch on the per-transaction guards and thread the dedup set through
the matching decode path, concatenating its effects. -/
def blockTxStep (r : TxResult) (tx : TxEntry) : TxResult :=
  match tx with
  | TxEntry.missing => r
  | TxEntry.malformedLegacy => r
  | TxEntry.versioned msg =>
    let r2 := decodeVersionedTransaction msg r.mints
    { mints := r2.mints, writes := r.writes ++ r2.writes,
      records := r.records ++ r2.records }
  | TxEntry.legacy msg =>
    let r2 := decodeLegacyTransaction msg r.mints
    { mints := r2.mints, writes := r.writes ++ r2.writes,
      records := r.records ++ r2.records }

/-- The transaction loop of one block (lines 176–189). -/
def processBlockTxs (transactions : List TxEntry) (newMints : List String) : TxResult :=
  transactions.foldl blockTxStep ⟨newMints, [], []⟩

/-- The mutable state the loop owns: `lastSlot` (line 48) and the
`newMints` set (line 49). -/
structure ScanState where
  lastSlot : Nat
  mints : List String
deriving DecidableEq

/-- Everything one poll cycle produces: the updated state, the file
writes and records emitted, and which slots `getBlock` was called on. -/
structure CycleResult where
  state : ScanState
  writes : List WriteOp
  records : List MintRecord
  fetched : List Nat

/-- The body of the inner `for` loop (lines 161–196): fetch the block for
one slot; on `null` (lines 169–172) or a thrown error (lines 192–195)
`continue` — `lastSlot` is not touched; otherwise process the block's
transactions and then execute `lastSlot = slot` (line 191). -/
def pollStep (getBlock : Nat → BlockFetchResult) (acc : CycleResult) (slot : Nat) :
    CycleResult :=
  match getBlock slot with
  | BlockFetchResult.nullBlock =>
    { acc with fetched := acc.fetched ++ [slot] }
  | BlockFetchResult.throwErr =>
    { acc with fetched := acc.fetched ++ [slot] }
  | BlockFetchResult.ok transactions =>
    let r := processBlockTxs transactions acc.state.mints
    { state := ⟨slot, r.mints⟩,
      writes := acc.writes ++ r.writes,
      records := acc.records ++ r.records,
      fetched := acc.fetched ++ [slot] }

/-- One iteration of the `while (true)` body of `pollNewBlocks`
(lines 150–197): compute `targetSlot = currentSlot - SLOT_LAG`; if
`targetSlot <= lastSlot` do nothing; otherwise run the `for` loop over
each slot from `lastSlot + 1` to `targetSlot` inclusive. -/
def pollCycle (getBlock : Nat → BlockFetchResult) (currentSlot : Nat)
    (st : ScanState) : CycleResult :=
  let targetSlot := currentSlot - SLOT_LAG
  if targetSlot ≤ st.lastSlot then
    ⟨st, [], [], []⟩
  else
    (List.range' (st.lastSlot + 1) (targetSlot - st.lastSlot)).foldl
      (pollStep getBlock) ⟨st, [], [], []⟩

/-- A sequence of poll cycles: each cycle sees a reported chain slot and
a block oracle, and the state threads through. -/
def runCycles (steps : List ((Nat → BlockFetchResult) × Nat)) (st : ScanState) : ScanState :=
  steps.foldl (fun s step => (pollCycle step.1 step.2 s).state) st

/-! ## Claim C1: the binary decoder -/

/-- Claim C1: applied to any byte sequence, the decode-and-check composite
yields a mint-init record exactly when the first byte is the
mint-initialization opcode 0 and the buffer is exactly the 67-byte
fixed-width layout; every other input yields `none` (the thrown
`BorshError` is caught at the call sites), and the embedding is a pure
function, so equal inputs give equal results.  For a well-formed buffer
with opcode 0, decimals 6, a 32-byte authority, flag 0 and 32 trailing
zero bytes it returns the record with those decimals and authority and no
freeze authority (option flag 0). -/
theorem C1_binary_decoder (buffer auth : List Nat) (hauth : auth.length = 32) :
    ((tryDecodeMintInit buffer).isSome ↔
        buffer.length = 67 ∧ buffer.head? = some 0)
    ∧ tryDecodeMintInit (0 :: 6 :: (auth ++ 0 :: List.replicate 32 0)) =
        some ⟨0, 6, auth, 0, List.replicate 32 0⟩ := by
  constructor
  · unfold tryDecodeMintInit
    rcases hb : borshDeserializeInitializeMint buffer with _ | d
    · simp only [Option.isSome_none, Bool.false_eq_true, false_iff]
      rintro ⟨h67, -⟩
      have := (borsh_isSome_iff buffer).mpr h67
      rw [hb] at this
      simp at this
    · obtain ⟨hhead, -, -, h67⟩ := borsh_eq_some buffer d hb
      by_cases h0 : d.instruction = 0
      · simp only [h0, if_true, eq_self_iff_true, Option.isSome_some, true_iff]
        exact ⟨h67, by rw [hhead, h0]⟩
      · simp only [h0, if_false, Option.isSome_none, Bool.false_eq_true, false_iff]
        rintro ⟨-, hh⟩
        rw [hhead] at hh
        exact h0 (by simpa using hh)
  · have h65 : (auth ++ 0 :: List.replicate 32 0).length = 65 := by
      simp [hauth]
    have htake : (auth ++ 0 :: List.replicate 32 0).take 32 = auth := by
      rw [List.take_append_of_le_length (by omega), List.take_of_length_le (by omega)]
    have hdrop32 : (auth ++ 0 :: List.replicate 32 0).drop 32 = 0 :: List.replicate 32 0 := by
      have h := @List.drop_append Nat auth (0 :: List.replicate 32 0) 0
      rwa [hauth, Nat.add_zero, List.drop_zero] at h
    have hdrop33 : (auth ++ 0 :: List.replicate 32 0).drop 33 = List.replicate 32 0 := by
      have h := @List.drop_append Nat auth (0 :: List.replicate 32 0) 1
      simpa [hauth] using h
    have hborsh : borshDeserializeInitializeMint (0 :: 6 :: (auth ++ 0 :: List.replicate 32 0))
        = some ⟨0, 6, auth, 0, List.replicate 32 0⟩ := by
      simp only [borshDeserializeInitializeMint]
      rw [if_pos h65, htake, hdrop32, hdrop33]
      simp
    simp only [tryDecodeMintInit, hborsh]
    simp

/-- Witness for C1 at a concrete well-formed buffer (decimals 6, a
constant 32-byte authority, flag 0, 32 trailing zeros). -/
theorem C1_binary_decoder_witness :
    ((tryDecodeMintInit
          (0 :: 6 :: (List.replicate 32 5 ++ 0 :: List.replicate 32 0))).isSome ↔
        (0 :: 6 :: (List.replicate 32 5 ++ 0 :: List.replicate 32 0)).length = 67
          ∧ (0 :: 6 :: (List.replicate 32 5 ++ 0 :: List.replicate 32 0)).head? = some 0)
    ∧ tryDecodeMintInit
        (0 :: 6 :: (List.replicate 32 5 ++ 0 :: List.replicate 32 0)) =
        some ⟨0, 6, List.replicate 32 5, 0, List.replicate 32 0⟩ :=
  C1_binary_decoder (0 :: 6 :: (List.replicate 32 5 ++ 0 :: List.replicate 32 0))
    (List.replicate 32 5) (by simp)

/-! ## Claim C6: dedup idempotence -/

theorem mem_addMint (s : List String) (m : String) : m ∈ addMint s m := by
  by_cases h : m ∈ s <;> simp [addMint, h]

/-- Claim C6: inserting the same mint address twice, in any state, leaves
exactly one occurrence in the in-memory set and in the persisted array;
the second insertion reports already-present and changes nothing; and the
set stays duplicate-free, so an address appears at most once however
often it is rediscovered. -/
theorem C6_dedup_idempotent (s : List String) (m : String) (hnd : s.Nodup) :
    (insertIfAbsent (insertIfAbsent s m).1 m).2 = false
    ∧ (insertIfAbsent (insertIfAbsent s m).1 m).1 = (insertIfAbsent s m).1
    ∧ ((insertIfAbsent (insertIfAbsent s m).1 m).1).count m = 1
    ∧ (persistedArray (insertIfAbsent (insertIfAbsent s m).1 m).1).count m = 1
    ∧ ((insertIfAbsent (insertIfAbsent s m).1 m).1).Nodup := by
  by_cases hm : m ∈ s
  · have hcount : s.count m = 1 := by
      have hle := List.nodup_iff_count_le_one.mp hnd m
      have hpos : 0 < s.count m := List.count_pos_iff.mpr hm
      omega
    simp [insertIfAbsent, hm, persistedArray, hcount, hnd]
  · have hmem : m ∈ s ++ [m] := by simp
    have hcount : (s ++ [m]).count m = 1 := by
      rw [List.count_append, List.count_eq_zero_of_not_mem hm]
      simp
    have hnd2 : (s ++ [m]).Nodup := by
      rw [List.nodup_append]
      refine ⟨hnd, List.nodup_singleton m, ?_⟩
      intro a ha hae
      simp only [List.mem_singleton] at hae
      subst hae
      exact hm ha
    simp [insertIfAbsent, hm, hmem, persistedArray, hcount, hnd2]

/-- Witness for C6 on a concrete one-element ledger. -/
theorem C6_dedup_idempotent_witness :
    (insertIfAbsent (insertIfAbsent ["a"] "b").1 "b").2 = false
    ∧ (insertIfAbsent (insertIfAbsent ["a"] "b").1 "b").1 = (insertIfAbsent ["a"] "b").1
    ∧ ((insertIfAbsent (insertIfAbsent ["a"] "b").1 "b").1).count "b" = 1
    ∧ (persistedArray (insertIfAbsent (insertIfAbsent ["a"] "b").1 "b").1).count "b" = 1
    ∧ ((insertIfAbsent (insertIfAbsent ["a"] "b").1 "b").1).Nodup :=
  C6_dedup_idempotent ["a"] "b" (by simp)

/-! ## Claim C8: persist-then-load round trip -/

theorem foldl_addMint (l : List String) : ∀ acc : List String,
    (∀ x ∈ l, x ∉ acc) → l.Nodup → l.foldl addMint acc = acc ++ l := by
  induction l with
  | nil => intro acc _ _; simp
  | cons x xs ih =>
    intro acc h hnd
    have hx : x ∉ acc := h x (by simp)
    rw [List.foldl_cons]
    show (xs.foldl addMint (addMint acc x)) = acc ++ x :: xs
    rw [addMint, if_neg hx]
    rw [ih (acc ++ [x]) ?_ (List.Nodup.of_cons hnd)]
    · simp
    · intro y hy
      simp only [List.mem_append, List.mem_singleton]
      rintro (hya | rfl)
      · exact h y (by simp [hy]) hya
      · exact (List.nodup_cons.mp hnd).1 hy

/-- Claim C8: for any duplicate-free set of mint addresses, persisting it
and reloading it at startup (with zero new blocks processed) leaves the
set served by `GET /api/mints` unchanged. -/
theorem C8_persist_load_roundtrip (mints : List String) (hnd : mints.Nodup) :
    apiMints (loadMints (persistedArray mints)) = mints := by
  have h := foldl_addMint mints [] (by simp) hnd
  simpa [apiMints, loadMints, persistedArray] using h

/-- Witness for C8 on a concrete two-element ledger. -/
theorem C8_persist_load_roundtrip_witness :
    apiMints (loadMints (persistedArray ["x", "y"])) = ["x", "y"] :=
  C8_persist_load_roundtrip ["x", "y"] (by simp)

/-! ## Claim C7: persistence ordering -/

/-- The write pattern the pipeline emits between a starting set `s` and a
final set `t`: for each mint `m` newly added along the way, `persistMints`
of the full set as of that addition (`s ++ [m]`) is issued, in order,
before any later addition's write. -/
inductive SnapshotChain : List String → List WriteOp → List String → Prop
  | nil : ∀ s, SnapshotChain s [] s
  | cons : ∀ s m ws t, m ∉ s →
      SnapshotChain (s ++ [m]) ws t →
      SnapshotChain s (persistMints (s ++ [m]) :: ws) t

theorem SnapshotChain.comp {s t u : List String} {ws1 ws2 : List WriteOp}
    (h1 : SnapshotChain s ws1 t) (h2 : SnapshotChain t ws2 u) :
    SnapshotChain s (ws1 ++ ws2) u := by
  induction h1 with
  | nil s => simpa using h2
  | cons s m ws t hm hrest ih => exact SnapshotChain.cons s m _ u hm (ih h2)

theorem SnapshotChain.mode_async {s t : List String} {ws : List WriteOp}
    (h : SnapshotChain s ws t) : ∀ w ∈ ws, w.mode = WriteMode.async := by
  induction h with
  | nil s => intro w hw; simp at hw
  | cons s m ws t hm hrest ih =>
    intro w hw
    rcases List.mem_cons.mp hw with rfl | hw2
    · rfl
    · exact ih w hw2


theorem versionedMintStep_chain (r : TxResult) (ixd : IxData) :
    ∃ ws, (versionedMintStep r ixd).writes = r.writes ++ ws
      ∧ SnapshotChain r.mints ws (versionedMintStep r ixd).mints := by
  unfold versionedMintStep decodeInitializeMintInstruction
  rcases hb : borshDeserializeInitializeMint ixd.data with _ | d
  · exact ⟨[], by simp, SnapshotChain.nil _⟩
  · by_cases h0 : d.instruction = 0
    · by_cases hm : pubkeyToBase58 d.mintAuthority ∈ r.mints
      · exact ⟨[], by simp [h0, hm], by simpa [h0, hm] using SnapshotChain.nil r.mints⟩
      · refine ⟨[persistMints (r.mints ++ [pubkeyToBase58 d.mintAuthority])], ?_, ?_⟩
        · simp [h0, hm]
        · simpa [h0, hm] using
            SnapshotChain.cons r.mints (pubkeyToBase58 d.mintAuthority) [] _ hm
              (SnapshotChain.nil _)
    · exact ⟨[], by simp [h0], by simpa [h0] using SnapshotChain.nil r.mints⟩

theorem legacyMintStep_chain (r : TxResult) (ixd : IxData) :
    ∃ ws, (legacyMintStep r ixd).writes = r.writes ++ ws
      ∧ SnapshotChain r.mints ws (legacyMintStep r ixd).mints := by
  unfold legacyMintStep decodeInitializeMintInstruction
  rcases hb : borshDeserializeInitializeMint ixd.data with _ | d
  · exact ⟨[], by simp, SnapshotChain.nil _⟩
  · by_cases h0 : d.instruction = 0
    · by_cases hm : pubkeyToBase58 d.mintAuthority ∈ r.mints
      · exact ⟨[], by simp [h0, hm], by simpa [h0, hm] using SnapshotChain.nil r.mints⟩
      · refine ⟨[persistMints (r.mints ++ [pubkeyToBase58 d.mintAuthority])], ?_, ?_⟩
        · simp [h0, hm]
        · simpa [h0, hm] using
            SnapshotChain.cons r.mints (pubkeyToBase58 d.mintAuthority) [] _ hm
              (SnapshotChain.nil _)
    · exact ⟨[], by simp [h0], by simpa [h0] using SnapshotChain.nil r.mints⟩

theorem decodeVersionedGo_chain (ak : List (List Nat)) (ixs : List DecompiledIx) :
    ∀ r : TxResult, ∃ ws,
      (decodeVersionedGo ak ixs r).writes = r.writes ++ ws
      ∧ SnapshotChain r.mints ws (decodeVersionedGo ak ixs r).mints := by
  induction ixs with
  | nil => intro r; exact ⟨[], by simp [decodeVersionedGo], SnapshotChain.nil _⟩
  | cons ix rest ih =>
    intro r
    by_cases hp : ix.programId = TOKEN_PROGRAM_ID
    · obtain ⟨ws1, hw1, hc1⟩ := versionedMintStep_chain r (mkVersionedIxData ak ix)
      obtain ⟨ws2, hw2, hc2⟩ := ih (versionedMintStep r (mkVersionedIxData ak ix))
      refine ⟨ws1 ++ ws2, ?_, ?_⟩
      · simp only [decodeVersionedGo, if_pos hp]
        rw [hw2, hw1, List.append_assoc]
      · simp only [decodeVersionedGo, if_pos hp]
        exact SnapshotChain.comp hc1 hc2
    · obtain ⟨ws, hw, hc⟩ := ih r
      refine ⟨ws, ?_, ?_⟩ <;> simp only [decodeVersionedGo, if_neg hp]
      · exact hw
      · exact hc

theorem decodeLegacyGo_chain (message : LegacyMessage) (ixs : List LegacyIx) :
    ∀ r : TxResult, ∃ ws,
      (decodeLegacyGo message ixs r).writes = r.writes ++ ws
      ∧ SnapshotChain r.mints ws (decodeLegacyGo message ixs r).mints := by
  induction ixs with
  | nil => intro r; exact ⟨[], by simp [decodeLegacyGo], SnapshotChain.nil _⟩
  | cons ix rest ih =>
    intro r
    rcases hpid : message.accountKeys.get? ix.programIdIndex with _ | pid
    · obtain ⟨ws, hw, hc⟩ := ih r
      refine ⟨ws, ?_, ?_⟩ <;> simp only [decodeLegacyGo, hpid]
      · exact hw
      · exact hc
    · by_cases hp : pid = TOKEN_PROGRAM_ID
      · obtain ⟨ws1, hw1, hc1⟩ := legacyMintStep_chain r (mkLegacyIxData message pid ix)
        obtain ⟨ws2, hw2, hc2⟩ := ih (legacyMintStep r (mkLegacyIxData message pid ix))
        refine ⟨ws1 ++ ws2, ?_, ?_⟩
        · simp only [decodeLegacyGo, hpid, if_pos hp]
          rw [hw2, hw1, List.append_assoc]
        · simp only [decodeLegacyGo, hpid, if_pos hp]
          exact SnapshotChain.comp hc1 hc2
      · obtain ⟨ws, hw, hc⟩ := ih r
        refine ⟨ws, ?_, ?_⟩ <;> simp only [decodeLegacyGo, hpid, if_neg hp]
        · exact hw
        · exact hc

theorem processBlockTxs_foldl_chain (txs : List TxEntry) :
    ∀ acc : TxResult, ∃ ws,
      (txs.foldl blockTxStep acc).writes = acc.writes ++ ws
      ∧ SnapshotChain acc.mints ws (txs.foldl blockTxStep acc).mints := by
  induction txs with
  | nil => intro acc; exact ⟨[], by simp, SnapshotChain.nil _⟩
  | cons tx rest ih =>
    intro acc
    obtain ⟨ws2, hw2, hc2⟩ := ih (blockTxStep acc tx)
    have hstep : ∃ ws1, (blockTxStep acc tx).writes = acc.writes ++ ws1
        ∧ SnapshotChain acc.mints ws1 (blockTxStep acc tx).mints := by
      rcases tx with _ | _ | msg | msg
      · exact ⟨[], by simp [blockTxStep], SnapshotChain.nil _⟩
      · exact ⟨[], by simp [blockTxStep], SnapshotChain.nil _⟩
      · obtain ⟨ws1, hw1, hc1⟩ :=
          decodeVersionedGo_chain msg.accountKeys msg.instructions ⟨acc.mints, [], []⟩
        refine ⟨ws1, ?_, ?_⟩
        · simp only [blockTxStep, decodeVersionedTransaction]
          simp only [decodeVersionedTransaction] at hw1
          simp [hw1]
        · simpa [blockTxStep, decodeVersionedTransaction] using hc1
      · obtain ⟨ws1, hw1, hc1⟩ :=
          decodeLegacyGo_chain msg msg.instructions ⟨acc.mints, [], []⟩
        refine ⟨ws1, ?_, ?_⟩
        · simp only [blockTxStep, decodeLegacyTransaction]
          simp only [decodeLegacyTransaction] at hw1
          simp [hw1]
        · simpa [blockTxStep, decodeLegacyTransaction] using hc1
    obtain ⟨ws1, hw1, hc1⟩ := hstep
    refine ⟨ws1 ++ ws2, ?_, ?_⟩
    · rw [List.foldl_cons, hw2, hw1, List.append_assoc]
    · rw [List.foldl_cons]
      exact SnapshotChain.comp hc1 hc2

/-- Claim C7 (amended): whenever a mint address is newly added during a
block's transaction loop, a write of the full current set as of that
addition is issued, in insertion order, before the loop reaches any later
addition — but through Node's asynchronous `fs.writeFile`, so the write
is initiated, not awaited: durable completion before the loop proceeds is
not guaranteed. -/
theorem C7_amended_async_snapshot_writes (txs : List TxEntry) (mints : List String) :
    SnapshotChain mints (processBlockTxs txs mints).writes (processBlockTxs txs mints).mints
    ∧ ∀ w ∈ (processBlockTxs txs mints).writes, w.mode = WriteMode.async := by
  obtain ⟨ws, hw, hc⟩ := processBlockTxs_foldl_chain txs ⟨mints, [], []⟩
  have hw2 : (processBlockTxs txs mints).writes = ws := by
    simpa [processBlockTxs] using hw
  constructor
  · rw [hw2]
    simpa [processBlockTxs] using hc
  · rw [hw2]
    exact hc.mode_async

/-- A concrete versioned transaction carrying one well-formed mint-init
instruction for the all-zero authority. -/
def vmsgC7 : DecompiledMessage :=
  ⟨[⟨TOKEN_PROGRAM_ID, [], 0 :: 6 :: (List.replicate 32 0 ++ 0 :: List.replicate 32 0)⟩], []⟩

/-- Claim C7 as stated is false on the code: processing `vmsgC7` on an
empty ledger newly adds a mint and issues exactly one write, and that
write is issued with `fs.writeFile` — asynchronous, so it does not
complete before the scan loop proceeds to the next transaction. -/
theorem C7_counterexample :
    (decodeVersionedTransaction vmsgC7 []).writes.all completesBeforeCallerProceeds = false
    ∧ (decodeVersionedTransaction vmsgC7 []).writes.length = 1 := by
  constructor <;> rfl

/-! ## Claims C2 and C9: what the recorded address is, and path equivalence -/

theorem versionedMintStep_data_only (r : TxResult) (ixd ixd2 : IxData)
    (h : ixd.data = ixd2.data) : versionedMintStep r ixd = versionedMintStep r ixd2 := by
  unfold versionedMintStep decodeInitializeMintInstruction
  rw [h]

theorem legacyMintStep_eq_versionedMintStep (r : TxResult) (ixd ixd2 : IxData)
    (h : ixd.data = ixd2.data) : legacyMintStep r ixd = versionedMintStep r ixd2 := by
  unfold legacyMintStep versionedMintStep decodeInitializeMintInstruction
  rw [h]

theorem versionedMintStep_mints (r : TxResult) (ixd : IxData)
    (d : InitializeMintInstructionData)
    (hdec : borshDeserializeInitializeMint ixd.data = some d) (hop : d.instruction = 0) :
    (versionedMintStep r ixd).mints = addMint r.mints (pubkeyToBase58 d.mintAuthority) := by
  unfold versionedMintStep decodeInitializeMintInstruction
  simp only [hdec, hop, eq_self_iff_true, if_true]
  by_cases hm : pubkeyToBase58 d.mintAuthority ∈ r.mints <;> simp [addMint, hm]

theorem decodeVersionedGo_ak_irrelevant (ak ak2 : List (List Nat)) (ixs : List DecompiledIx) :
    ∀ r, decodeVersionedGo ak ixs r = decodeVersionedGo ak2 ixs r := by
  induction ixs with
  | nil => intro r; rfl
  | cons ix rest ih =>
    intro r
    by_cases hp : ix.programId = TOKEN_PROGRAM_ID
    · simp only [decodeVersionedGo, if_pos hp]
      rw [versionedMintStep_data_only r (mkVersionedIxData ak ix) (mkVersionedIxData ak2 ix) rfl]
      exact ih _
    · simp only [decodeVersionedGo, if_neg hp]
      exact ih r

theorem decodeLegacyGo_flags_irrelevant (m1 m2 : LegacyMessage)
    (hak : m1.accountKeys = m2.accountKeys) (ixs : List LegacyIx) :
    ∀ r, decodeLegacyGo m1 ixs r = decodeLegacyGo m2 ixs r := by
  induction ixs with
  | nil => intro r; rfl
  | cons ix rest ih =>
    intro r
    rcases hpid : m1.accountKeys.get? ix.programIdIndex with _ | pid
    · have hpid2 : m2.accountKeys.get? ix.programIdIndex = none := by rw [← hak]; exact hpid
      simp only [decodeLegacyGo, hpid, hpid2]
      exact ih r
    · have hpid2 : m2.accountKeys.get? ix.programIdIndex = some pid := by rw [← hak]; exact hpid
      by_cases hp : pid = TOKEN_PROGRAM_ID
      · simp only [decodeLegacyGo, hpid, hpid2, if_pos hp]
        rw [legacyMintStep_eq_versionedMintStep r (mkLegacyIxData m1 pid ix) (mkLegacyIxData m1 pid ix) rfl]
        rw [legacyMintStep_eq_versionedMintStep r (mkLegacyIxData m2 pid ix) (mkLegacyIxData m1 pid ix) rfl]
        exact ih _
      · simp only [decodeLegacyGo, hpid, hpid2, if_neg hp]
        exact ih r

/-- Claim C2: on both decode paths, the address inserted into the dedup
set — and hence served by `GET /api/mints` — is the base58 encoding of
the 32-byte mint-authority field (bytes 2..33 of the instruction's data,
base64-decoded first on the legacy path); no account from the resolved
account list feeds the recorded address: the versioned result is
unchanged under any replacement of `accountKeys`, and the legacy result
is unchanged under any replacement of the signer/writable flag tables. -/
theorem C2_recorded_address_from_data_bytes
    (ixs : List DecompiledIx) (ak ak2 : List (List Nat)) (s0 : List String)
    (m1 m2 : LegacyMessage)
    (hak : m1.accountKeys = m2.accountKeys) (hixs : m1.instructions = m2.instructions)
    (ix : DecompiledIx) (mints : List String) (d : InitializeMintInstructionData)
    (hpid : ix.programId = TOKEN_PROGRAM_ID)
    (hdec : borshDeserializeInitializeMint ix.data = some d)
    (hop : d.instruction = 0)
    (lix : LegacyIx) (lak : List (List Nat)) (sf wf : List Bool)
    (lmints : List String) (ld : InitializeMintInstructionData)
    (hlpid : lak.get? lix.programIdIndex = some TOKEN_PROGRAM_ID)
    (hldec : borshDeserializeInitializeMint (bufferFromBase64 lix.data) = some ld)
    (hlop : ld.instruction = 0) :
    decodeVersionedTransaction ⟨ixs, ak⟩ s0 = decodeVersionedTransaction ⟨ixs, ak2⟩ s0
    ∧ decodeLegacyTransaction m1 s0 = decodeLegacyTransaction m2 s0
    ∧ (decodeVersionedTransaction ⟨[ix], ak⟩ mints).mints
        = addMint mints (pubkeyToBase58 ((ix.data.drop 2).take 32))
    ∧ pubkeyToBase58 ((ix.data.drop 2).take 32)
        ∈ apiMints (decodeVersionedTransaction ⟨[ix], ak⟩ mints).mints
    ∧ (decodeLegacyTransaction ⟨lak, [lix], sf, wf⟩ lmints).mints
        = addMint lmints (pubkeyToBase58 (((bufferFromBase64 lix.data).drop 2).take 32))
    ∧ pubkeyToBase58 (((bufferFromBase64 lix.data).drop 2).take 32)
        ∈ apiMints (decodeLegacyTransaction ⟨lak, [lix], sf, wf⟩ lmints).mints := by
  have hma : d.mintAuthority = (ix.data.drop 2).take 32 := (borsh_eq_some _ _ hdec).2.1
  have hlma : ld.mintAuthority = ((bufferFromBase64 lix.data).drop 2).take 32 :=
    (borsh_eq_some _ _ hldec).2.1
  have h3 : (decodeVersionedTransaction ⟨[ix], ak⟩ mints).mints
      = addMint mints (pubkeyToBase58 ((ix.data.drop 2).take 32)) := by
    rw [← hma]
    simp only [decodeVersionedTransaction, decodeVersionedGo, if_pos hpid]
    exact versionedMintStep_mints ⟨mints, [], []⟩ (mkVersionedIxData ak ix) d hdec hop
  have h5 : (decodeLegacyTransaction ⟨lak, [lix], sf, wf⟩ lmints).mints
      = addMint lmints (pubkeyToBase58 (((bufferFromBase64 lix.data).drop 2).take 32)) := by
    rw [← hlma]
    simp only [decodeLegacyTransaction, decodeLegacyGo, hlpid, if_true]
    rw [legacyMintStep_eq_versionedMintStep _ (mkLegacyIxData ⟨lak, [lix], sf, wf⟩ TOKEN_PROGRAM_ID lix)
      (mkLegacyIxData ⟨lak, [lix], sf, wf⟩ TOKEN_PROGRAM_ID lix) rfl]
    exact versionedMintStep_mints ⟨lmints, [], []⟩ _ ld hldec hlop
  refine ⟨?_, ?_, h3, ?_, h5, ?_⟩
  · exact decodeVersionedGo_ak_irrelevant ak ak2 ixs _
  · show decodeLegacyGo m1 m1.instructions _ = decodeLegacyGo m2 m2.instructions _
    rw [hixs]
    exact decodeLegacyGo_flags_irrelevant m1 m2 hak m2.instructions _
  · rw [apiMints, h3]
    exact mem_addMint _ _
  · rw [apiMints, h5]
    exact mem_addMint _ _

/-- A 67-byte well-formed mint-init payload: opcode 0, decimals 6,
all-zero authority, flag 0, 32 trailing zero bytes. -/
def samplePayload : List Nat :=
  0 :: 6 :: (List.replicate 32 0 ++ 0 :: List.replicate 32 0)

/-- The decoded form of `samplePayload`. -/
def sampleDecoded : InitializeMintInstructionData :=
  ⟨0, 6, List.replicate 32 0, 0, List.replicate 32 0⟩

/-- The base64 encoding of `samplePayload`, as a legacy instruction
carries it in its `data` string. -/
def samplePayloadB64 : String :=
  "AAYAAAAAAAAAAAAAAAAAAAAAAAAAAAAAAAAAAAAAAAAAAAAAAAAAAAAAAAAAAAAAAAAAAAAAAAAAAAAAAAAAAAAAAA=="

/-- Witness for C2 at concrete transactions over `samplePayload`. -/
theorem C2_recorded_address_from_data_bytes_witness :
    decodeVersionedTransaction ⟨[], []⟩ [] = decodeVersionedTransaction ⟨[], []⟩ []
    ∧ decodeLegacyTransaction ⟨[], [], [], []⟩ [] = decodeLegacyTransaction ⟨[], [], [], []⟩ []
    ∧ (decodeVersionedTransaction ⟨[⟨TOKEN_PROGRAM_ID, [], samplePayload⟩], []⟩ []).mints
        = addMint [] (pubkeyToBase58 ((samplePayload.drop 2).take 32))
    ∧ pubkeyToBase58 ((samplePayload.drop 2).take 32)
        ∈ apiMints (decodeVersionedTransaction ⟨[⟨TOKEN_PROGRAM_ID, [], samplePayload⟩], []⟩ []).mints
    ∧ (decodeLegacyTransaction ⟨[TOKEN_PROGRAM_ID], [⟨0, [], samplePayloadB64⟩], [], []⟩ []).mints
        = addMint [] (pubkeyToBase58 (((bufferFromBase64 samplePayloadB64).drop 2).take 32))
    ∧ pubkeyToBase58 (((bufferFromBase64 samplePayloadB64).drop 2).take 32)
        ∈ apiMints (decodeLegacyTransaction ⟨[TOKEN_PROGRAM_ID], [⟨0, [], samplePayloadB64⟩], [], []⟩ []).mints :=
  C2_recorded_address_from_data_bytes [] [] [] [] ⟨[], [], [], []⟩ ⟨[], [], [], []⟩ rfl rfl
    ⟨TOKEN_PROGRAM_ID, [], samplePayload⟩ [] sampleDecoded rfl (by decide) rfl
    ⟨0, [], samplePayloadB64⟩ [TOKEN_PROGRAM_ID] [] [] [] sampleDecoded rfl (by decide) rfl

/-- Claim C9: a legacy-encoded and a versioned-encoded transaction with an
equivalent mint-init instruction — same program id, same resolved account
list, same instruction data bytes (the legacy wire data base64-decodes to
the versioned bytes) — are processed to equal results: identical records
(hence identical mintAddress, decimals and authority fields), identical
dedup-set update and identical writes. -/
theorem C9_legacy_versioned_equivalence
    (vix : DecompiledIx) (vak : List (List Nat))
    (lix : LegacyIx) (lak : List (List Nat)) (sf wf : List Bool)
    (pid : List Nat) (mints : List String)
    (hlpid : lak.get? lix.programIdIndex = some pid)
    (hvpid : vix.programId = pid)
    (hdata : bufferFromBase64 lix.data = vix.data)
    (_haccts : lix.accounts.map (fun i => lak.getD i [])
        = vix.accounts.map (fun i => vak.getD i [])) :
    decodeLegacyTransaction ⟨lak, [lix], sf, wf⟩ mints
      = decodeVersionedTransaction ⟨[vix], vak⟩ mints := by
  simp only [decodeLegacyTransaction, decodeVersionedTransaction, decodeLegacyGo,
    decodeVersionedGo, hlpid, hvpid]
  by_cases hp : pid = TOKEN_PROGRAM_ID
  · rw [if_pos hp, if_pos hp]
    exact legacyMintStep_eq_versionedMintStep _ _ _
      (by simp [mkLegacyIxData, mkVersionedIxData, hdata])
  · rw [if_neg hp, if_neg hp]

/-- Witness for C9 at concrete equivalent transactions over `samplePayload`. -/
theorem C9_legacy_versioned_equivalence_witness :
    decodeLegacyTransaction ⟨[TOKEN_PROGRAM_ID], [⟨0, [], samplePayloadB64⟩], [], []⟩ []
      = decodeVersionedTransaction ⟨[⟨TOKEN_PROGRAM_ID, [], samplePayload⟩], []⟩ [] :=
  C9_legacy_versioned_equivalence ⟨TOKEN_PROGRAM_ID, [], samplePayload⟩ []
    ⟨0, [], samplePayloadB64⟩ [TOKEN_PROGRAM_ID] [] [] TOKEN_PROGRAM_ID []
    rfl rfl (by decide) rfl

/-! ## Claims C3, C4, C5, C10: the scan loop and the cursor -/

theorem pollStep_fetched (g : Nat → BlockFetchResult) (acc : CycleResult) (slot : Nat) :
    (pollStep g acc slot).fetched = acc.fetched ++ [slot] := by
  unfold pollStep
  rcases g slot with _ | _ | _ <;> rfl

theorem foldl_pollStep_fetched (g : Nat → BlockFetchResult) (slots : List Nat) :
    ∀ acc : CycleResult,
      (slots.foldl (pollStep g) acc).fetched = acc.fetched ++ slots := by
  induction slots with
  | nil => intro acc; simp
  | cons s rest ih =>
    intro acc
    rw [List.foldl_cons, ih (pollStep g acc s), pollStep_fetched]
    simp

/-- In the fold over a slot range, the final cursor is either untouched
or equal to one of the visited slots whose fetch returned an actual
block. -/
theorem foldl_pollStep_lastSlot (g : Nat → BlockFetchResult) (slots : List Nat) :
    ∀ acc : CycleResult,
      (slots.foldl (pollStep g) acc).state.lastSlot = acc.state.lastSlot
      ∨ ((slots.foldl (pollStep g) acc).state.lastSlot ∈ slots
          ∧ ∃ b, g ((slots.foldl (pollStep g) acc).state.lastSlot) = BlockFetchResult.ok b) := by
  induction slots with
  | nil => intro acc; exact Or.inl rfl
  | cons s rest ih =>
    intro acc
    rw [List.foldl_cons]
    rcases ih (pollStep g acc s) with h | ⟨hmem, hb⟩
    · rw [h]
      unfold pollStep
      rcases hg : g s with txs | _ | _
      · exact Or.inr ⟨by simp, txs, hg⟩
      · exact Or.inl rfl
      · exact Or.inl rfl
    · exact Or.inr ⟨by simp [hmem], hb⟩

theorem pollCycle_lastSlot_mono (g : Nat → BlockFetchResult) (c : Nat) (st : ScanState) :
    st.lastSlot ≤ (pollCycle g c st).state.lastSlot := by
  simp only [pollCycle]
  split
  · exact le_refl _
  · rcases foldl_pollStep_lastSlot g (List.range' (st.lastSlot + 1) (c - SLOT_LAG - st.lastSlot))
      ⟨st, [], [], []⟩ with h | ⟨hmem, -⟩
    · rw [h]
    · rw [List.mem_range'] at hmem
      obtain ⟨i, -, hi⟩ := hmem
      omega

theorem runCycles_lastSlot_mono (steps : List ((Nat → BlockFetchResult) × Nat)) :
    ∀ st : ScanState, st.lastSlot ≤ (runCycles steps st).lastSlot := by
  induction steps with
  | nil => intro st; exact le_refl _
  | cons step rest ih =>
    intro st
    calc st.lastSlot ≤ (pollCycle step.1 step.2 st).state.lastSlot :=
          pollCycle_lastSlot_mono step.1 step.2 st
      _ ≤ (runCycles rest (pollCycle step.1 step.2 st).state).lastSlot :=
          ih (pollCycle step.1 step.2 st).state
      _ = (runCycles (step :: rest) st).lastSlot := rfl

/-- Claim C5 (amended): across any sequence of scan cycles the cursor is
non-decreasing, and the cursor is only ever set to a slot whose fetch
returned an actual block — a slot whose fetch threw or returned `null`
never itself becomes the cursor; but (see the counterexample) a later
successful slot in the same cycle can still advance the cursor past an
earlier failed one, because every per-slot error is caught and the loop
continues. -/
theorem C5_amended_cursor_monotone :
    (∀ (steps : List ((Nat → BlockFetchResult) × Nat)) (st : ScanState),
      st.lastSlot ≤ (runCycles steps st).lastSlot)
    ∧ (∀ (g : Nat → BlockFetchResult) (c : Nat) (st : ScanState),
      (pollCycle g c st).state.lastSlot = st.lastSlot
      ∨ ∃ b, g ((pollCycle g c st).state.lastSlot) = BlockFetchResult.ok b) := by
  constructor
  · intro steps st
    exact runCycles_lastSlot_mono steps st
  · intro g c st
    simp only [pollCycle]
    split
    · exact Or.inl rfl
    · rcases foldl_pollStep_lastSlot g (List.range' (st.lastSlot + 1) (c - SLOT_LAG - st.lastSlot))
        ⟨st, [], [], []⟩ with h | ⟨-, hb⟩
      · exact Or.inl h
      · exact Or.inr hb

/-- The block oracle of the C5 counterexample: the fetch of slot 101
throws; every other slot yields an empty block. -/
def gC5 : Nat → BlockFetchResult :=
  fun s => if s = 101 then BlockFetchResult.throwErr else BlockFetchResult.ok []

/-- Claim C5 as stated is false on the code: with the cursor at 100 and
reported slot 104 (safe bound 102), the fetch of slot 101 throws a fatal
error, yet after the cycle the cursor is 102 — it advanced past the
failed block 101. -/
theorem C5_counterexample :
    gC5 101 = BlockFetchResult.throwErr
    ∧ (pollCycle gC5 104 ⟨100, []⟩).state.lastSlot = 102
    ∧ 101 < (pollCycle gC5 104 ⟨100, []⟩).state.lastSlot := by
  refine ⟨rfl, rfl, by decide⟩

theorem pollStep_ok (g : Nat → BlockFetchResult) (acc : CycleResult) (slot : Nat)
    (txs : List TxEntry) (h : g slot = BlockFetchResult.ok txs) :
    pollStep g acc slot =
      { state := ⟨slot, (processBlockTxs txs acc.state.mints).mints⟩,
        writes := acc.writes ++ (processBlockTxs txs acc.state.mints).writes,
        records := acc.records ++ (processBlockTxs txs acc.state.mints).records,
        fetched := acc.fetched ++ [slot] } := by
  unfold pollStep
  rw [h]

/-- Claim C3 (amended): with the cursor at 100 and the safe bound at 101,
a `null` block at 101 leaves the cursor at 100 — the `continue` skips the
`lastSlot = slot` assignment, so the slot is not credited and will be
refetched next cycle — and no record is added and no write issued for
that index. -/
theorem C3_amended_null_block_not_credited (getBlock : Nat → BlockFetchResult)
    (mints : List String) (h : getBlock 101 = BlockFetchResult.nullBlock) :
    (pollCycle getBlock 103 ⟨100, mints⟩).state = ⟨100, mints⟩
    ∧ (pollCycle getBlock 103 ⟨100, mints⟩).writes = []
    ∧ (pollCycle getBlock 103 ⟨100, mints⟩).records = []
    ∧ (pollCycle getBlock 103 ⟨100, mints⟩).fetched = [101] := by
  have hguard : ¬(103 - SLOT_LAG ≤ 100) := by decide
  have hr : List.range' (100 + 1) (103 - SLOT_LAG - 100) = [101] := rfl
  have hcyc : pollCycle getBlock 103 ⟨100, mints⟩
      = pollStep getBlock ⟨⟨100, mints⟩, [], [], []⟩ 101 := by
    simp only [pollCycle]
    rw [if_neg hguard, hr]
    rfl
  rw [hcyc]
  unfold pollStep
  rw [h]
  exact ⟨rfl, rfl, rfl, rfl⟩

/-- Witness for C3 (amended) at the all-null block oracle. -/
theorem C3_amended_null_block_not_credited_witness :
    (pollCycle (fun _ => BlockFetchResult.nullBlock) 103 ⟨100, []⟩).state = ⟨100, []⟩
    ∧ (pollCycle (fun _ => BlockFetchResult.nullBlock) 103 ⟨100, []⟩).writes = []
    ∧ (pollCycle (fun _ => BlockFetchResult.nullBlock) 103 ⟨100, []⟩).records = []
    ∧ (pollCycle (fun _ => BlockFetchResult.nullBlock) 103 ⟨100, []⟩).fetched = [101] :=
  C3_amended_null_block_not_credited (fun _ => BlockFetchResult.nullBlock) [] rfl

/-- Claim C3 as stated is false on the code: when the only slot in range,
101, returns the `null` sentinel, the cursor after the cycle is still
100, not 101 — unavailability is not treated like an empty block for
cursor advancement. -/
theorem C3_counterexample :
    (pollCycle (fun _ => BlockFetchResult.nullBlock) 103 ⟨100, []⟩).state.lastSlot = 100
    ∧ (pollCycle (fun _ => BlockFetchResult.nullBlock) 103 ⟨100, []⟩).state.lastSlot ≠ 101 := by
  exact ⟨rfl, by decide⟩

/-- Claim C4 (amended): with reported slot 105, lag 2 and cursor 100, the
safe bound is 103 and the loop fetches exactly slots 101, 102 and 103 in
increasing order; when all three blocks are available the cursor ends at
103; slots 104 and 105 are not fetched in that cycle. -/
theorem C4_amended_processes_through_103 (getBlock : Nat → BlockFetchResult)
    (mints : List String) (t1 t2 t3 : List TxEntry)
    (_h1 : getBlock 101 = BlockFetchResult.ok t1)
    (_h2 : getBlock 102 = BlockFetchResult.ok t2)
    (h3 : getBlock 103 = BlockFetchResult.ok t3) :
    (pollCycle getBlock 105 ⟨100, mints⟩).fetched = [101, 102, 103]
    ∧ (pollCycle getBlock 105 ⟨100, mints⟩).state.lastSlot = 103
    ∧ 104 ∉ (pollCycle getBlock 105 ⟨100, mints⟩).fetched
    ∧ 105 ∉ (pollCycle getBlock 105 ⟨100, mints⟩).fetched := by
  have hguard : ¬(105 - SLOT_LAG ≤ 100) := by decide
  have hr : List.range' (100 + 1) (105 - SLOT_LAG - 100) = [101, 102, 103] := rfl
  have hcyc : pollCycle getBlock 105 ⟨100, mints⟩
      = pollStep getBlock (pollStep getBlock
          (pollStep getBlock ⟨⟨100, mints⟩, [], [], []⟩ 101) 102) 103 := by
    simp only [pollCycle]
    rw [if_neg hguard, hr]
    rfl
  have hfetched : (pollCycle getBlock 105 ⟨100, mints⟩).fetched = [101, 102, 103] := by
    rw [hcyc, pollStep_fetched, pollStep_fetched, pollStep_fetched]
    rfl
  refine ⟨hfetched, ?_, ?_, ?_⟩
  · rw [hcyc, pollStep_ok getBlock _ 103 t3 h3]
  · rw [hfetched]
    decide
  · rw [hfetched]
    decide

/-- Witness for C4 (amended) at the all-empty block oracle. -/
theorem C4_amended_processes_through_103_witness :
    (pollCycle (fun _ => BlockFetchResult.ok []) 105 ⟨100, []⟩).fetched = [101, 102, 103]
    ∧ (pollCycle (fun _ => BlockFetchResult.ok []) 105 ⟨100, []⟩).state.lastSlot = 103
    ∧ 104 ∉ (pollCycle (fun _ => BlockFetchResult.ok []) 105 ⟨100, []⟩).fetched
    ∧ 105 ∉ (pollCycle (fun _ => BlockFetchResult.ok []) 105 ⟨100, []⟩).fetched :=
  C4_amended_processes_through_103 (fun _ => BlockFetchResult.ok []) [] [] [] []
    rfl rfl rfl

/-- Claim C4 as stated is false on the code: with reported slot 105, lag 2
and cursor 100, the loop runs through slot 103 inclusive
(`slot <= targetSlot` with `targetSlot = 105 - 2`), so the cursor ends at
103 — not 102 — and slot 103 is fetched in that same cycle. -/
theorem C4_counterexample :
    (pollCycle (fun _ => BlockFetchResult.ok []) 105 ⟨100, []⟩).state.lastSlot = 103
    ∧ (pollCycle (fun _ => BlockFetchResult.ok []) 105 ⟨100, []⟩).state.lastSlot ≠ 102
    ∧ 103 ∈ (pollCycle (fun _ => BlockFetchResult.ok []) 105 ⟨100, []⟩).fetched := by
  exact ⟨rfl, by decide, by decide⟩

/-- Claim C10 (amended): at process start the cursor is initialized to
exactly the slot the ledger reports — no lag is subtracted and there is
no persisted cursor to resume from (startup reads only the mints file) —
so in particular it is never initialized above the reported height. -/
theorem C10_amended_initial_cursor (reportedSlot : Nat) :
    initialLastSlot reportedSlot = reportedSlot
    ∧ initialLastSlot reportedSlot ≤ reportedSlot :=
  ⟨rfl, le_refl _⟩

/-- Claim C10 as stated is false on the code: with reported height 105 and
configured lag 2 the claim demands an initial cursor of 103 (height minus
lag), but the code sets 105. -/
theorem C10_counterexample :
    initialLastSlot 105 = 105
    ∧ 105 - SLOT_LAG = 103
    ∧ initialLastSlot 105 ≠ 105 - SLOT_LAG := by
  exact ⟨rfl, rfl, by decide⟩
